import Mathlib

/-!
Verification of the DM4 parser and converter in `DM4_processing.py`
(repository `OSIRIS_fix_scripts`).

The file stream is modelled as a `List Nat` of byte values; a file handle's
read cursor is an explicit natural-number position.  Python exceptions that
are reachable in the source are modelled by the `PyErr` type, and every
fallible step returns `Except PyErr`.  A 32-bit float value is represented by
its bit pattern (a `Nat` below `2 ^ 32`) as assembled by `struct.unpack`;
where float arithmetic matters (the converter's normalization), IEEE 754
binary32 values are decoded exactly into `ℚ` and the numpy arithmetic is
modelled over `ℚ`.
-/

/-- Python exception classes that the code in `DM4_processing.py` can raise.
`unboundLocal` stands for `UnboundLocalError` (reading a local variable that
was never assigned), `seekError` for the `OSError` raised by `f.seek` on a
negative position, `structError` for `struct.error` on a short buffer. -/
inductive PyErr where
  | indexError
  | structError
  | seekError
  | valueError
  | typeError
  | nameError
  | unboundLocal
  | zeroDivisionError
  | unicodeEncodeError
  deriving DecidableEq, Repr

instance {ε α : Type} [DecidableEq ε] [DecidableEq α] : DecidableEq (Except ε α) :=
  fun x y =>
    match x, y with
    | .error a, .error b =>
      if h : a = b then .isTrue (by rw [h]) else .isFalse (fun hh => h (Except.error.inj hh))
    | .error _, .ok _ => .isFalse (fun hh => Except.noConfusion hh)
    | .ok _, .error _ => .isFalse (fun hh => Except.noConfusion hh)
    | .ok a, .ok b =>
      if h : a = b then .isTrue (by rw [h]) else .isFalse (fun hh => h (Except.ok.inj hh))

/-! ### Python byte-string primitives -/

/-- Normalize a Python slice endpoint for a buffer of length `len`:
negative values count from the end, and the result is clamped to `[0, len]`. -/
def pyBound (len : Nat) (i : Int) : Nat :=
  if i < 0 then min ((len : Int) + i).toNat len else min i.toNat len

/-- Python slice `l[a:b]`. -/
def pySlice (l : List Nat) (a b : Int) : List Nat :=
  (l.take (pyBound l.length b)).drop (pyBound l.length a)

/-- Python slice `l[a:]`. -/
def pySliceFrom (l : List Nat) (a : Int) : List Nat :=
  l.drop (pyBound l.length a)

/-- Python single-byte indexing `l[i]`: a negative index counts from the end;
an index out of range raises `IndexError`. -/
def pyGet (l : List Nat) (i : Int) : Except PyErr Nat :=
  let j : Int := if i < 0 then (l.length : Int) + i else i
  if h : 0 ≤ j ∧ j.toNat < l.length then .ok (l.get ⟨j.toNat, h.2⟩)
  else .error .indexError

/-- `f.read(n)` at cursor `c`: the bytes, never past the end of the stream. -/
def pyRead (s : List Nat) (c n : Nat) : List Nat :=
  (s.drop c).take n

/-- `bytes.read(…)[-1]`: last byte of a read, `IndexError` when it is empty. -/
def pyLastByte (l : List Nat) : Except PyErr Nat :=
  match l.getLast? with
  | some v => .ok v
  | none => .error .indexError

/-! ### Signature search (`bytes.find`) -/

/-- Positions at which `sig` occurs in the suffix starting the scan at
absolute position `i` (an occurrence must fit entirely inside the buffer). -/
def occsAux (sig : List Nat) (i : Nat) : List Nat → List Nat
  | [] => if ([] : List Nat).take sig.length == sig then [i] else []
  | b :: rest =>
    (if (b :: rest).take sig.length == sig then [i] else []) ++ occsAux sig (i + 1) rest

/-- All positions at which `sig` occurs in `chunk` (the occurrence must fit
entirely inside `chunk`), in increasing order. -/
def occs (sig chunk : List Nat) : List Nat := occsAux sig 0 chunk

/-- `chunk.find(sig)`: position of the first occurrence, `-1` if absent. -/
def bfind (sig chunk : List Nat) : Int :=
  match (occs sig chunk).head? with
  | some i => (i : Int)
  | none => -1

/-! ### `struct.unpack` -/

/-- Assemble bytes most-significant first (big-endian). -/
def beNat (bs : List Nat) : Nat :=
  bs.foldl (fun acc b => acc * 256 + b) 0

/-- `unpack('>Q', bs)`: 8-byte big-endian unsigned; `struct.error` unless the
buffer holds exactly 8 bytes. -/
def unpackQbe (bs : List Nat) : Except PyErr Nat :=
  if bs.length = 8 then .ok (beNat bs) else .error .structError

/-- `unpack('>q', bs)`: 8-byte big-endian signed (two's complement). -/
def unpackqbe (bs : List Nat) : Except PyErr Int :=
  if bs.length = 8 then
    let n := beNat bs
    .ok (if n < 2 ^ 63 then (n : Int) else (n : Int) - 2 ^ 64)
  else .error .structError

/-- `unpack(e + 'L', bs)`: 4-byte unsigned in the byte order selected by the
endianness character (`'>'` = big-endian, `'<'` = little-endian). -/
def unpackU32 (e : Char) (bs : List Nat) : Except PyErr Nat :=
  if bs.length = 4 then
    .ok (if e = '>' then beNat bs else beNat bs.reverse)
  else .error .structError

/-- `unpack(e + 'f', bs)`: 4-byte float in the byte order selected by the
endianness character.  The value is represented by its IEEE 754 binary32 bit
pattern. -/
def unpackF32 (e : Char) (bs : List Nat) : Except PyErr Nat :=
  if bs.length = 4 then
    .ok (if e = '>' then beNat bs else beNat bs.reverse)
  else .error .structError

/-- Exact value of an IEEE 754 binary32 bit pattern, `none` for infinities
and NaNs. -/
def f32ToRat (n : Nat) : Option ℚ :=
  let sign : ℚ := if n / 2 ^ 31 % 2 = 1 then -1 else 1
  let ex : Nat := n / 2 ^ 23 % 256
  let mant : Nat := n % 2 ^ 23
  if ex = 255 then none
  else if ex = 0 then some (sign * mant * (2 : ℚ) ^ (-(149 : Int)))
  else some (sign * (2 ^ 23 + mant) * (2 : ℚ) ^ ((ex : Int) - 150))

/-! ### Tag signatures searched by the parser -/

/-- `b"ImageData"` -/
def imageDataSig : List Nat := [73, 109, 97, 103, 101, 68, 97, 116, 97]

/-- `b"Scale"` -/
def scaleSig : List Nat := [83, 99, 97, 108, 101]

/-- `b"Units"` -/
def unitsSig : List Nat := [85, 110, 105, 116, 115]

/-- `b"\x15\x00\x04Data"` -/
def dataSentinel : List Nat := [21, 0, 4, 68, 97, 116, 97]

/-- `b"Dimensions"` -/
def dimensionsSig : List Nat := [68, 105, 109, 101, 110, 115, 105, 111, 110, 115]

/-! ### `getDM4Endianness` (lines 57-72)

```python
with open(file_path, 'rb') as f:
    val = f.read(16)[-1] # position of flag
    if val == 0:
        return '>' # big endian
    else:
        return '<' # little endian
```
`f.read(16)` returns at most 16 bytes; on a stream shorter than 16 bytes it
returns the whole stream, and `[-1]` then indexes the last byte actually
read; only an empty read raises `IndexError`. -/
def getDM4Endianness (s : List Nat) : Except PyErr Char := do
  let val ← pyLastByte (pyRead s 0 16)
  if val = 0 then return '>' else return '<'

theorem pyRead_zero_take (s : List Nat) (n : Nat) : pyRead s 0 n = s.take n := by
  simp [pyRead]

theorem getLast?_take_sixteen {s : List Nat} (h : 16 ≤ s.length) :
    (s.take 16).getLast? = s[15]? := by
  rw [List.getLast?_eq_getElem?, List.length_take]
  have hm : min 16 s.length - 1 = 15 := by omega
  rw [hm]
  exact List.getElem?_take_of_lt (by norm_num)

/-- C3: for every stream of at least 16 bytes, endianness detection is a pure
function of the last byte of the 16-byte header prefix: value 0 yields the
big-endian decoding convention (`'>'`, selecting most-significant-byte-first
assembly in `unpackF32`/`unpackU32`), any nonzero value the little-endian
convention (`'<'`). -/
theorem C3_endianness_flag_byte (s : List Nat) (h : 16 ≤ s.length) :
    getDM4Endianness s = .ok (if s.getD 15 1 = 0 then '>' else '<') := by
  have h15 : s[15]? = some s[15] := List.getElem?_eq_getElem (by omega)
  have hD : s.getD 15 1 = s[15] := by
    rw [List.getD_eq_getElem?_getD, h15, Option.getD_some]
  simp only [getDM4Endianness, pyRead_zero_take, pyLastByte,
    getLast?_take_sixteen h, h15, hD]
  by_cases h0 : s[15] = 0 <;> simp [h0, Bind.bind, Except.bind, pure, Except.pure]

/-- C3 witness: a concrete 16-byte header with flag byte 0 detects as
big-endian. -/
theorem C3_endianness_flag_byte_witness :
    16 ≤ (List.replicate 16 0 : List Nat).length ∧
      getDM4Endianness (List.replicate 16 0) = .ok '>' := by
  refine ⟨by decide, ?_⟩
  have := C3_endianness_flag_byte (List.replicate 16 0) (by decide)
  simpa using this

/-- C4 counterexample: on the 1-byte stream `[7]` (shorter than 16 bytes) the
detector does not fail; it returns the little-endian verdict taken from the
last byte actually read. -/
theorem C4_short_stream_counterexample :
    getDM4Endianness [7] = .ok '<' ∧ ([7] : List Nat).length < 16 := by
  constructor
  · rfl
  · decide

/-- C4 amended: only the empty stream makes endianness detection fail (with
Python's `IndexError` from indexing an empty read, there is no dedicated
`MalformedHeader` error); every nonempty stream shorter than 16 bytes still
yields a byte-order verdict, computed from the last byte of the stream. -/
theorem C4_amended_short_stream (s : List Nat) :
    (s = [] → getDM4Endianness s = .error .indexError) ∧
      (s ≠ [] → s.length < 16 →
        getDM4Endianness s = .ok (if s.getLast?.getD 1 = 0 then '>' else '<')) := by
  constructor
  · rintro rfl; rfl
  · intro hne hlen
    have htake : s.take 16 = s := List.take_of_length_le (by omega)
    obtain ⟨v, hv⟩ : ∃ v, s.getLast? = some v := by
      cases h : s.getLast? with
      | none => exact absurd (List.getLast?_eq_none_iff.mp h) hne
      | some v => exact ⟨v, rfl⟩
    simp only [getDM4Endianness, pyRead_zero_take, htake, pyLastByte, hv,
      Option.getD_some]
    by_cases h0 : v = 0 <;> simp [h0, Bind.bind, Except.bind, pure, Except.pure]

/-- C4 amended witness: the empty stream raises, the 1-byte stream `[7]` gets
a verdict. -/
theorem C4_amended_short_stream_witness :
    getDM4Endianness [] = .error .indexError ∧ getDM4Endianness [7] = .ok '<' := by
  refine ⟨(C4_amended_short_stream []).1 rfl, ?_⟩
  have := (C4_amended_short_stream [7]).2 (by decide) (by decide)
  simpa using this

/-! ### `getDM4Scale` (lines 74-126) -/

/-- Lines 91-102 of `getDM4Scale`: windowed search for the second occurrence
of `b"ImageData"`.

```python
while spos < size:
    chunk = f.read(1024)
    spos = f.tell()
    pos = chunk.find(b"ImageData")
    if pos > -1:
        if first_data_found:
            image_data_pos = spos - 1024 + pos
            break
        else:
            first_data_found = True
    else:
        f.seek(f.tell() - 8) # to avoid the situation where 'ImageData' is split across chunks
```

State: `c` is the read cursor (`f.tell()` before the window read), `spos` the
position recorded after the previous read, `flag` is `first_data_found`.  On
a no-match window the cursor is rewound by 8 bytes; `f.seek` raises `OSError`
on a negative target, which is reachable only when the stream is shorter than
8 bytes.  The loop terminates because `spos` strictly increases and the loop
stops once `spos` reaches the stream length; `fuel` bounds the remaining
iterations (`s.length + 2` is always enough), and exhausted fuel
conservatively reports "not found" (`-1`), exactly the value the loop leaves
in `image_data_pos` when it runs off the end of the stream. -/
def loc2Loop (s : List Nat) : Nat → Nat → Nat → Bool → Except PyErr Int
  | 0, _, _, _ => .ok (-1)
  | fuel + 1, c, spos, flag =>
    if spos < s.length then
      let chunk := pyRead s c 1024
      let c' := min (c + 1024) s.length
      let pos := bfind imageDataSig chunk
      if -1 < pos then
        if flag then .ok ((c' : Int) - 1024 + pos)
        else loc2Loop s fuel c' c' true
      else
        if (c' : Int) - 8 < 0 then .error .seekError
        else loc2Loop s fuel (c' - 8) c' flag
    else .ok (-1)

/-- Lines 105-106: seek to the located position and read the local
1024-byte window. -/
def dm4Window (s : List Nat) (ip : Int) : List Nat := pyRead s ip.toNat 1024

/-- Lines 107-113: find `b"Scale"` in the window, then twice more, each
further search starting 37 bytes past the previously found position (a failed
find contributes `-1` and is silently absorbed into the position arithmetic;
the `scale_chunk` bytes of line 108 are computed by the source but never
used). -/
def scaleAnchor (chunk : List Nat) : Int :=
  let pos0 := bfind scaleSig chunk
  let pos1 := bfind scaleSig (pySliceFrom chunk (pos0 + 37)) + pos0 + 37
  bfind scaleSig (pySliceFrom chunk (pos1 + 37)) + pos1 + 37

/-- Line 114: `scale_hex = chunk[pos+33:pos+37]`. -/
def scaleHex (chunk : List Nat) : List Nat :=
  pySlice chunk (scaleAnchor chunk + 33) (scaleAnchor chunk + 37)

/-- Line 119: `pos = chunk[pos:].find(b"Units") + pos + 41`. -/
def unitsPos (chunk : List Nat) : Int :=
  bfind unitsSig (pySliceFrom chunk (scaleAnchor chunk)) + scaleAnchor chunk + 41

/-- Lines 120-123: the 8-byte big-endian (`'>Q'`, independent of the detected
endianness) label length at the units position, then one character per two
source bytes, each character being the first byte of its 2-byte code unit. -/
def unitsLabel (chunk : List Nat) : Except PyErr (List Nat) := do
  let L ← unpackQbe (pySlice chunk (unitsPos chunk) (unitsPos chunk + 8))
  (List.range L).mapM (fun (i : Nat) => pyGet chunk (unitsPos chunk + 8 + 2 * (i : Int)))

/-- `getDM4Scale` (lines 74-126): locate the second `b"ImageData"`, seek there
(`f.seek` raises on the `-1` left by an unsuccessful search), read the local
window, decode the scale float (bits) and the unit label. -/
def getDM4Scale (s : List Nat) (e : Char) : Except PyErr (Nat × List Nat) := do
  let ip ← loc2Loop s (s.length + 2) 0 0 false
  if ip < 0 then throw .seekError
  let chunk := dm4Window s ip
  let scale ← unpackF32 e (scaleHex chunk)
  let lbl ← unitsLabel chunk
  return (scale, lbl)

/-! ### Occurrence-list lemmas -/

theorem occsAux_eq (sig : List Nat) :
    ∀ (chunk : List Nat) (i : Nat),
      occsAux sig i chunk =
        ((List.range (chunk.length + 1)).filter
          (fun j => (chunk.drop j).take sig.length == sig)).map (fun j => j + i) := by
  intro chunk
  induction chunk with
  | nil =>
    intro i
    unfold occsAux
    rw [show List.range (List.length ([] : List Nat) + 1) = [0] by rfl, List.filter_cons]
    cases h : (([] : List Nat).drop 0).take sig.length == sig with
    | true =>
      rw [show (([] : List Nat).take sig.length == sig) = true from h]
      simp [h]
    | false =>
      rw [show (([] : List Nat).take sig.length == sig) = false from h]
      simp [h]
  | cons b rest ih =>
    intro i
    unfold occsAux
    rw [List.length_cons, List.range_succ_eq_map, List.filter_cons]
    have hmap : List.filter (fun j => ((b :: rest).drop j).take sig.length == sig)
        ((List.range (rest.length + 1)).map Nat.succ) =
        ((List.range (rest.length + 1)).filter
          (fun j => (rest.drop j).take sig.length == sig)).map Nat.succ := by
      rw [List.filter_map]
      rfl
    rw [hmap, ih (i + 1)]
    have hcomp : ∀ l : List Nat, (l.map Nat.succ).map (fun j => j + i) =
        l.map (fun j => j + (i + 1)) := by
      intro l
      rw [List.map_map]
      exact List.map_congr_left (fun j _ => by simp only [Function.comp_apply]; omega)
    cases h : ((b :: rest).drop 0).take sig.length == sig with
    | true =>
      rw [show ((b :: rest).take sig.length == sig) = true from h]
      simp only [if_true, List.map_cons, hcomp, List.singleton_append]
      rw [Nat.zero_add]
    | false =>
      rw [show ((b :: rest).take sig.length == sig) = false from h]
      simp [hcomp]

theorem occs_eq_filter (sig chunk : List Nat) :
    occs sig chunk =
      (List.range (chunk.length + 1)).filter
        (fun j => (chunk.drop j).take sig.length == sig) := by
  rw [occs, occsAux_eq]
  exact (List.map_congr_left (fun j _ => by simp)).trans (List.map_id _)

theorem mem_occs {sig chunk : List Nat} {i : Nat} :
    i ∈ occs sig chunk ↔ i < chunk.length + 1 ∧ (chunk.drop i).take sig.length = sig := by
  rw [occs_eq_filter]
  simp [List.mem_filter, List.mem_range]

theorem occs_pairwise (sig chunk : List Nat) : (occs sig chunk).Pairwise (· < ·) := by
  rw [occs_eq_filter]
  exact List.Pairwise.sublist (List.filter_sublist _) (List.pairwise_lt_range _)

theorem head?_mem {α : Type} {l : List α} {a : α} (h : l.head? = some a) : a ∈ l := by
  cases l with
  | nil => simp at h
  | cons x t => simp at h; simp [h]

theorem bfind_found {sig chunk : List Nat} (h : -1 < bfind sig chunk) :
    ∃ j : Nat, (occs sig chunk).head? = some j ∧ bfind sig chunk = (j : Int) := by
  unfold bfind at *
  cases h' : (occs sig chunk).head? with
  | none => rw [h'] at h; norm_num at h
  | some j => exact ⟨j, rfl, rfl⟩

theorem pyRead_length (s : List Nat) (c n : Nat) :
    (pyRead s c n).length = min n (s.length - c) := by
  simp [pyRead]

/-- An occurrence of a nonempty signature fully inside a window read from
cursor `c` is an occurrence in the whole stream at the corresponding absolute
position, and it lies fully inside the window. -/
theorem occ_of_window_occ {s sig : List Nat} (hsig : sig ≠ []) {c n j : Nat}
    (h : ((pyRead s c n).drop j).take sig.length = sig) :
    (c + j) ∈ occs sig s ∧ j + sig.length ≤ (pyRead s c n).length := by
  have hlen : (((pyRead s c n).drop j).take sig.length).length = sig.length := by
    rw [h]
  rw [List.length_take, List.length_drop] at hlen
  have hsl : 0 < sig.length := List.length_pos.mpr hsig
  have hfit : j + sig.length ≤ (pyRead s c n).length := by omega
  refine ⟨?_, hfit⟩
  have hdrop : (pyRead s c n).drop j = (s.drop (c + j)).take (n - j) := by
    simp only [pyRead, List.drop_take, List.drop_drop]
  rw [hdrop, List.take_take] at h
  have hn : min sig.length (n - j) = sig.length := by
    have := pyRead_length s c n
    omega
  rw [hn] at h
  have hmem : c + j < s.length := by
    by_contra hge
    have : s.drop (c + j) = [] := List.drop_eq_nil_of_le (by omega)
    rw [this] at h
    simp at h
    exact hsig h
  exact mem_occs.mpr ⟨by omega, h⟩

/-- When the stream holds fewer than two occurrences of `b"ImageData"`, the
windowed locator loop can only end in "not found" (`-1`) or in the negative
seek error of a sub-8-byte stream. -/
theorem loc2Loop_of_lt_two {s : List Nat}
    (hcnt : (occs imageDataSig s).length < 2) :
    ∀ fuel c spos flag, c ≤ s.length →
      (flag = true → ∃ p ∈ occs imageDataSig s, p + 9 ≤ c + 8) →
      loc2Loop s fuel c spos flag = .ok (-1) ∨
        loc2Loop s fuel c spos flag = .error .seekError := by
  intro fuel
  induction fuel with
  | zero => intro c spos flag _ _; left; rfl
  | succ fuel ih =>
    intro c spos flag hc hflag
    by_cases hspos : spos < s.length
    · by_cases hfind : -1 < bfind imageDataSig (pyRead s c 1024)
      · obtain ⟨j, hhead, hj⟩ := bfind_found hfind
        have hjmem := head?_mem hhead
        have hocc := (mem_occs.mp hjmem).2
        have htrans := occ_of_window_occ (show imageDataSig ≠ [] by decide) hocc
        have hsig9 : imageDataSig.length = 9 := by decide
        cases flag with
        | true =>
          exfalso
          obtain ⟨p, hp, hpc⟩ := hflag rfl
          have hne : p ≠ c + j := by omega
          have hmem2 := htrans.1
          rcases hocl : occs imageDataSig s with _ | ⟨a, _ | ⟨b, t⟩⟩
          · rw [hocl] at hp; exact List.not_mem_nil p hp
          · rw [hocl] at hp hmem2
            rw [List.mem_singleton] at hp hmem2
            exact hne (hp.trans hmem2.symm)
          · rw [hocl] at hcnt
            simp only [List.length_cons] at hcnt
            omega
        | false =>
          have hres : loc2Loop s (fuel + 1) c spos false =
              loc2Loop s fuel (min (c + 1024) s.length) (min (c + 1024) s.length) true := by
            simp only [loc2Loop, if_pos hspos, if_pos hfind]
            rfl
          rw [hres]
          apply ih
          · omega
          · intro _
            refine ⟨c + j, htrans.1, ?_⟩
            have hwl := pyRead_length s c 1024
            rw [hsig9] at htrans
            omega
      · by_cases hseek : ((min (c + 1024) s.length : Nat) : Int) - 8 < 0
        · right
          simp only [loc2Loop, if_pos hspos, if_neg hfind, if_pos hseek]
        · have hres : loc2Loop s (fuel + 1) c spos flag =
              loc2Loop s fuel (min (c + 1024) s.length - 8) (min (c + 1024) s.length) flag := by
            simp only [loc2Loop, if_pos hspos, if_neg hfind, if_neg hseek]
          rw [hres]
          by_cases hcont : min (c + 1024) s.length < s.length
          · apply ih
            · omega
            · intro hfl
              obtain ⟨p, hp, hpc⟩ := hflag hfl
              exact ⟨p, hp, by omega⟩
          · cases fuel with
            | zero => left; rfl
            | succ f =>
              left
              simp only [loc2Loop, if_neg hcont]
    · left
      simp only [loc2Loop, if_neg hspos]

/-- C2 amended: the locator hard-codes occurrence index 2 for `b"ImageData"`;
when the stream holds fewer than two occurrences, the loop runs off the end
of the stream leaving `image_data_pos = -1` and `getDM4Scale` then fails on
the negative seek (an `OSError`, not a dedicated `TagNotFound` error).  The
offset-equality half of the claim is refuted separately: when several
occurrences share one 1024-byte window the loop's answer differs from a
whole-buffer reference scan. -/
theorem C2_amended_missing_tag (s : List Nat) (e : Char)
    (hcnt : (occs imageDataSig s).length < 2) :
    getDM4Scale s e = .error .seekError := by
  rcases loc2Loop_of_lt_two hcnt (s.length + 2) 0 0 false (by omega) (by simp) with h | h <;>
    simp [getDM4Scale, h, Bind.bind, Except.bind, throw, throwThe, MonadExceptOf.throw]

/-- C2 amended witness: a 20-byte all-zero stream (no `ImageData` at all)
makes `getDM4Scale` fail with the negative-seek error. -/
theorem C2_amended_missing_tag_witness :
    (occs imageDataSig (List.replicate 20 0)).length < 2 ∧
      getDM4Scale (List.replicate 20 0) '<' = .error .seekError :=
  ⟨by decide, C2_amended_missing_tag (List.replicate 20 0) '<' (by decide)⟩

theorem occs_nil_of_ne {sig : List Nat} (hsig : sig ≠ []) : occs sig [] = [] := by
  rw [occs_eq_filter]
  rw [show List.range (List.length ([] : List Nat) + 1) = [0] by rfl, List.filter_cons]
  have h0 : ((([] : List Nat).drop 0).take sig.length == sig) = false := by
    rw [beq_eq_false_iff_ne]
    intro h
    exact hsig (by simpa using h.symm)
  rw [h0]
  simp

theorem occs_cons (sig : List Nat) (a : Nat) (t : List Nat) :
    occs sig (a :: t) =
      (if (a :: t).take sig.length == sig then [0] else []) ++
        (occs sig t).map Nat.succ := by
  rw [occs_eq_filter, occs_eq_filter]
  rw [List.length_cons, List.range_succ_eq_map, List.filter_cons]
  have hmap : (List.filter (fun i => (List.drop i (a :: t)).take sig.length == sig)
      ((List.range (t.length + 1)).map Nat.succ)) =
      ((List.range (t.length + 1)).filter
        (fun i => (List.drop i t).take sig.length == sig)).map Nat.succ := by
    rw [List.filter_map]
    rfl
  rw [hmap]
  cases h : (a :: t).take sig.length == sig with
  | true => simp [h]
  | false => simp [h]

/-- Occurrences of a nonempty signature in a dropped suffix are the
occurrences at or past the drop point, shifted. -/
theorem occs_drop {sig : List Nat} (hsig : sig ≠ []) :
    ∀ (k : Nat) (chunk : List Nat),
      occs sig (chunk.drop k) =
        ((occs sig chunk).filter (fun o => k ≤ o)).map (fun o => o - k) := by
  intro k
  induction k with
  | zero =>
    intro chunk
    simp only [List.drop_zero, Nat.zero_le, List.filter_true]
    rw [List.filter_eq_self.mpr (by intro a _; simp)]
    simp
  | succ k ih =>
    intro chunk
    cases chunk with
    | nil =>
      rw [List.drop_nil, occs_nil_of_ne hsig]
      simp
    | cons a t =>
      have hlhs : (a :: t).drop (k + 1) = t.drop k := rfl
      rw [hlhs, ih, occs_cons]
      rw [List.filter_append, List.filter_map]
      have h0 : List.filter (fun o => decide (k + 1 ≤ o))
          (if (a :: t).take sig.length == sig then [0] else []) = [] := by
        cases h : (a :: t).take sig.length == sig <;> simp
      rw [h0, List.nil_append, List.map_map]
      have hpred : ((fun o => decide (k + 1 ≤ o)) ∘ Nat.succ)
          = (fun o => decide (k ≤ o)) := by
        funext o
        simp [Nat.succ_le_succ_iff]
      have hsub : ((fun o => o - (k + 1)) ∘ Nat.succ) = (fun o => o - k) := by
        funext o
        simp [Nat.succ_sub_succ]
      rw [hpred, hsub]

/-- `chunk[k:].find(sig)` in terms of the occurrence list of `chunk`: if the
occurrences at or past `k` start with `o`, the find returns `o - k`. -/
theorem bfind_sliceFrom {sig chunk : List Nat} (hsig : sig ≠ []) {k o : Nat}
    {tl : List Nat} (hk : k ≤ chunk.length)
    (hf : (occs sig chunk).filter (fun x => k ≤ x) = o :: tl) :
    bfind sig (pySliceFrom chunk (k : Int)) = ((o - k : Nat) : Int) := by
  have hslice : pySliceFrom chunk (k : Int) = chunk.drop k := by
    simp only [pySliceFrom, pyBound]
    rw [if_neg (by omega), Int.toNat_natCast, min_eq_left hk]
  rw [hslice]
  unfold bfind
  rw [occs_drop hsig k chunk, hf]
  simp

/-- `chunk.find(sig)` returns the first occurrence. -/
theorem bfind_head {sig chunk : List Nat} {o : Nat} {tl : List Nat}
    (hocc : occs sig chunk = o :: tl) : bfind sig chunk = (o : Int) := by
  unfold bfind
  rw [hocc]
  rfl

theorem occ_add_len_le {sig chunk : List Nat} (hsig : sig ≠ []) {o : Nat}
    (ho : o ∈ occs sig chunk) : o + sig.length ≤ chunk.length := by
  have h := (mem_occs.mp ho).2
  have hl : ((chunk.drop o).take sig.length).length = sig.length := by rw [h]
  rw [List.length_take, List.length_drop] at hl
  have : 0 < sig.length := List.length_pos.mpr hsig
  omega

/-- C5 amended: lines 110-113 do not skip to the third `Scale` occurrence
as such; each of the two follow-up searches starts 37 bytes past the
previously found position.  Whenever the first three `Scale` occurrences in
the window are each at least 37 bytes past the previous one, the anchor
reached is exactly the third occurrence, and the scale bytes are the fixed
slice 33..36 past it (decoded by `getDM4Scale` as a 4-byte float in the
detected endianness, see `unpackF32`). -/
theorem C5_amended_stride37 (chunk : List Nat) (o1 o2 o3 : Nat) (rest : List Nat)
    (hocc : occs scaleSig chunk = o1 :: o2 :: o3 :: rest)
    (h12 : o1 + 37 ≤ o2) (h23 : o2 + 37 ≤ o3) :
    scaleAnchor chunk = (o3 : Int) ∧
      scaleHex chunk = pySlice chunk ((o3 : Int) + 33) ((o3 : Int) + 37) := by
  have hsig : scaleSig ≠ [] := by decide
  have hsl : scaleSig.length = 5 := by decide
  have hpw := occs_pairwise scaleSig chunk
  rw [hocc] at hpw
  obtain ⟨-, hpw2⟩ := List.pairwise_cons.mp hpw
  obtain ⟨-, hpw3⟩ := List.pairwise_cons.mp hpw2
  obtain ⟨h3r, -⟩ := List.pairwise_cons.mp hpw3
  have ho2 : o2 ∈ occs scaleSig chunk := by rw [hocc]; simp
  have ho3 : o3 ∈ occs scaleSig chunk := by rw [hocc]; simp
  have hlen2 := occ_add_len_le hsig ho2
  have hlen3 := occ_add_len_le hsig ho3
  rw [hsl] at hlen2 hlen3
  have hk1 : o1 + 37 ≤ chunk.length := by omega
  have hk2 : o2 + 37 ≤ chunk.length := by omega
  have hf1 : (occs scaleSig chunk).filter (fun x => o1 + 37 ≤ x) = o2 :: o3 :: rest := by
    rw [hocc,
      List.filter_cons_of_neg (by simp only [decide_eq_true_eq]; omega),
      List.filter_cons_of_pos (by simp only [decide_eq_true_eq]; omega),
      List.filter_cons_of_pos (by simp only [decide_eq_true_eq]; omega),
      List.filter_eq_self.mpr (fun x hx => by
        simp only [decide_eq_true_eq]; have := h3r x hx; omega)]
  have hf2 : (occs scaleSig chunk).filter (fun x => o2 + 37 ≤ x) = o3 :: rest := by
    rw [hocc,
      List.filter_cons_of_neg (by simp only [decide_eq_true_eq]; omega),
      List.filter_cons_of_neg (by simp only [decide_eq_true_eq]; omega),
      List.filter_cons_of_pos (by simp only [decide_eq_true_eq]; omega),
      List.filter_eq_self.mpr (fun x hx => by
        simp only [decide_eq_true_eq]; have := h3r x hx; omega)]
  have hb0 : bfind scaleSig chunk = (o1 : Int) := bfind_head hocc
  have hb1 := bfind_sliceFrom hsig hk1 hf1
  have hb2 := bfind_sliceFrom hsig hk2 hf2
  have hpos1 : bfind scaleSig (pySliceFrom chunk (bfind scaleSig chunk + 37)) +
      bfind scaleSig chunk + 37 = (o2 : Int) := by
    rw [hb0, show ((o1 : Int) + 37) = ((o1 + 37 : Nat) : Int) by push_cast; ring, hb1]
    omega
  have hanchor : scaleAnchor chunk = (o3 : Int) := by
    simp only [scaleAnchor]
    rw [hpos1, show ((o2 : Int) + 37) = ((o2 + 37 : Nat) : Int) by push_cast; ring, hb2]
    omega
  exact ⟨hanchor, by rw [scaleHex, hanchor]⟩

/-- Overwrite `vals` into `base` starting at position `p` (used to build
concrete test streams). -/
def overlay (base : List Nat) (p : Nat) (vals : List Nat) : List Nat :=
  base.take p ++ vals ++ base.drop (p + vals.length)

/-- A 120-byte window with `Scale` at 0, 40 and 80. -/
def wScaleChunk : List Nat :=
  overlay (overlay (overlay (List.replicate 120 0) 0 scaleSig) 40 scaleSig) 80 scaleSig

/-- C5 amended witness: on a window whose three `Scale` occurrences are 40
bytes apart, the anchor is the third occurrence (byte 80) and the scale bytes
are the slice 113..116. -/
theorem C5_amended_stride37_witness :
    scaleAnchor wScaleChunk = (80 : Int) ∧
      scaleHex wScaleChunk = pySlice wScaleChunk ((80 : Int) + 33) ((80 : Int) + 37) :=
  C5_amended_stride37 wScaleChunk 0 40 80 [] (by decide) (by decide) (by decide)

theorem mapM_pyGet (chunk : List Nat) (p : Int) (hp : 0 ≤ p) :
    ∀ l : List Nat, (∀ i ∈ l, p.toNat + 8 + 2 * i < chunk.length) →
      l.mapM (fun (i : Nat) => pyGet chunk (p + 8 + 2 * (i : Int))) =
        .ok (l.map (fun i => chunk.getD (p.toNat + 8 + 2 * i) 0)) := by
  intro l
  induction l with
  | nil => intro _; rfl
  | cons a t ih =>
    intro hv
    have ha : p.toNat + 8 + 2 * a < chunk.length := hv a (by simp)
    have htn : (p + 8 + 2 * (a : Int)).toNat = p.toNat + 8 + 2 * a := by omega
    have hget : pyGet chunk (p + 8 + 2 * (a : Int)) =
        .ok (chunk.getD (p.toNat + 8 + 2 * a) 0) := by
      have hcond : (if p + 8 + 2 * (a : Int) < 0
          then (chunk.length : Int) + (p + 8 + 2 * (a : Int))
          else p + 8 + 2 * (a : Int)) = p + 8 + 2 * (a : Int) := if_neg (by omega)
      simp only [pyGet, hcond]
      rw [dif_pos ⟨by omega, by rw [htn]; exact ha⟩]
      have hval : chunk.get ⟨(p + 8 + 2 * (a : Int)).toNat, by rw [htn]; exact ha⟩ =
          chunk.getD (p.toNat + 8 + 2 * a) 0 := by
        rw [List.getD_eq_getElem?_getD, List.getElem?_eq_getElem ha, Option.getD_some]
        simp only [List.get_eq_getElem, htn]
      rw [hval]
    rw [List.mapM_cons, hget, ih (fun i hi => hv i (List.mem_cons_of_mem _ hi))]
    simp [Bind.bind, Except.bind, pure, Except.pure]

/-- C6: the unit label is decoded by locating `b"Units"` from the scale
anchor onward, adding the fixed offset 41, reading an 8-byte big-endian
length field there (`unpackQbe`, independent of the detected file
endianness), and producing exactly that many characters, each taken from the
first byte of its 2-byte code unit. -/
theorem C6_units_decode (chunk : List Nat) (L : Nat)
    (hp : 0 ≤ unitsPos chunk)
    (hL : unpackQbe (pySlice chunk (unitsPos chunk) (unitsPos chunk + 8)) = .ok L)
    (hrange : ∀ i < L, (unitsPos chunk).toNat + 8 + 2 * i < chunk.length) :
    unitsLabel chunk =
      .ok ((List.range L).map
        (fun i => chunk.getD ((unitsPos chunk).toNat + 8 + 2 * i) 0)) ∧
      ∀ lbl, unitsLabel chunk = .ok lbl → lbl.length = L := by
  have hmap := mapM_pyGet chunk (unitsPos chunk) hp (List.range L)
    (fun i hi => hrange i (List.mem_range.mp hi))
  have hlab : unitsLabel chunk =
      .ok ((List.range L).map
        (fun i => chunk.getD ((unitsPos chunk).toNat + 8 + 2 * i) 0)) := by
    unfold unitsLabel
    rw [hL]
    simpa [Bind.bind, Except.bind] using hmap
  refine ⟨hlab, fun lbl hlbl => ?_⟩
  rw [hlab] at hlbl
  cases hlbl
  simp

/-- A 133-byte window with `Units` at byte 80, an 8-byte big-endian length
field with value 2 at byte 121, and code units `n\x00m\x00` at byte 129. -/
def wUnitsChunk : List Nat :=
  overlay (overlay (overlay (List.replicate 133 0) 80 unitsSig)
    121 [0, 0, 0, 0, 0, 0, 0, 2]) 129 [110, 0, 109, 0]

set_option maxRecDepth 40000 in
/-- C6 witness: the concrete window decodes to the 2-character label "nm". -/
theorem C6_units_decode_witness :
    unitsLabel wUnitsChunk = .ok [110, 109] := by
  have h := C6_units_decode wUnitsChunk 2 (by decide) (by rfl) (by decide)
  rw [h.1]
  rfl

/-! ### `getDM4Image` (lines 128-199) -/

/-- A decoded image-data block: the flat pixel payload (float bit patterns),
reshaped in place to `dim2 * dim1` samples, and the `(dim2, dim1)` pair
stored in the result dictionary. -/
structure DMImage where
  img : List Nat
  dim : Nat × Nat
  deriving DecidableEq, Repr

/-- `ndarray.resize([dim2, dim1])` on a freshly built array: in-place
reshape keeping the row-major prefix and zero-filling any extension.
(`MemoryError` on an implausibly large allocation is a machine condition,
not a function of the stream, and is not modelled.) -/
def resizeTo (l : List Nat) (n : Nat) : List Nat :=
  l.take n ++ List.replicate (n - l.length) 0

/-- Read-cursor position after `tag_header = f.read(19)` (line 154). -/
def bkC1 (s : List Nat) (p : Nat) : Nat := min (p + 19) s.length

/-- Cursor after the `ninfo` read (line 156). -/
def bkC2 (s : List Nat) (p : Nat) : Nat := min (bkC1 s p + 8) s.length

/-- Cursor after the `tdtype` read (line 157). -/
def bkC3 (s : List Nat) (p : Nat) : Nat := min (bkC2 s p + 8) s.length

/-- Cursor after the `dtype` read (line 158). -/
def bkC4 (s : List Nat) (p : Nat) : Nat := min (bkC3 s p + 8) s.length

/-- Cursor after the `narray` read (line 159). -/
def bkC5 (s : List Nat) (p : Nat) : Nat := min (bkC4 s p + 8) s.length

/-- `image_bytes = f.read(narray*4)` (line 160); a negative size makes
`f.read` return the whole remaining stream. -/
def bkImageBytes (s : List Nat) (p : Nat) (narray : Int) : List Nat :=
  if narray < 0 then s.drop (bkC5 s p) else pyRead s (bkC5 s p) (narray.toNat * 4)

/-- `cpos = f.tell()` after the pixel-payload read (line 163). -/
def bkCpos (s : List Nat) (p : Nat) (narray : Int) : Nat :=
  if narray < 0 then s.length else min (bkC5 s p + narray.toNat * 4) s.length

/-- `dpos = chunk.find(b"Dimensions")` over the 256-byte window (line 165). -/
def bkDpos (s : List Nat) (p : Nat) (narray : Int) : Int :=
  bfind dimensionsSig (pyRead s (bkCpos s p narray) 256)

/-- Seek target `cpos + dpos` of line 166 (as a stream position). -/
def bkDstart (s : List Nat) (p : Nat) (narray : Int) : Nat :=
  ((bkCpos s p narray : Int) + bkDpos s p narray).toNat

/-- Lines 152-179: processing of one sentinel match at absolute position `p`
(`f.seek(spos + pos)` has just run).  Returns the decoded block and the final
read-cursor position, recorded into `spos` at line 198.  `f.read` with the
negative size `narray * 4` of a negative `narray` reads to the end of the
stream, and `np.zeros([narray])` (line 172) then raises `ValueError`.  A
failed `Dimensions` search leaves `dpos = -1`, silently shifting the
dimension window one byte back (line 166), and `f.seek` raises if the target
`cpos + dpos` is negative. -/
def blockAt (s : List Nat) (e : Char) (p : Nat) : Except PyErr (DMImage × Nat) := do
  let _tlen ← unpackqbe (pySlice (pyRead s p 19) 7 15)
  let _ninfo ← unpackqbe (pyRead s (bkC1 s p) 8)
  let _tdtype ← pyLastByte (pyRead s (bkC2 s p) 8)
  let _dtype ← pyLastByte (pyRead s (bkC3 s p) 8)
  let narray ← unpackqbe (pyRead s (bkC4 s p) 8)
  if (bkCpos s p narray : Int) + bkDpos s p narray < 0 then throw .seekError
  else do
    let dim1 ← unpackU32 e (pySlice (pyRead s (bkDstart s p narray) 98) 59 63)
    let dim2 ← unpackU32 e (pySlice (pyRead s (bkDstart s p narray) 98) 94 98)
    if narray < 0 then throw .valueError
    else do
      let floats ← (List.range narray.toNat).mapM
        (fun (i : Nat) => unpackF32 e
          (pySlice (bkImageBytes s p narray) ((i : Int) * 4) ((i : Int) * 4 + 4)))
      return (⟨resizeTo floats (dim2 * dim1), (dim2, dim1)⟩,
        min (bkDstart s p narray + 98) s.length)

/-- Lines 145-148: the window read of one loop iteration.

```python
if spos + 1024 < size:
       chunk = f.read(1024)
else:
    chunk = f.read(size-spos)
```
-/
def imgWindow (s : List Nat) (spos : Nat) : List Nat :=
  if spos + 1024 < s.length then pyRead s spos 1024 else pyRead s spos (s.length - spos)

/-- Lines 144-198: the windowed sentinel scan.  In this loop (unlike the one
in `getDM4Scale`) the read cursor always equals the recorded `spos` at the
top of an iteration — there is no rewind on a no-match window — so a single
position parameter suffices.  `thumb?` holds the thumbnail once `first` has
been set (lines 183-184 assign both together).  Reaching the end of the
stream without having broken out at a second block executes
`return raw, thumbnail` with `raw` never assigned — an `UnboundLocalError` —
which is also the fuel-exhaustion result (unreachable at fuel
`s.length + 2`, since `spos` strictly increases). -/
def imgLoop (s : List Nat) (e : Char) :
    Nat → Nat → Option DMImage → Except PyErr (DMImage × DMImage)
  | 0, _, _ => .error .unboundLocal
  | fuel + 1, spos, thumb? =>
    if spos < s.length then
      if -1 < bfind dataSentinel (imgWindow s spos) then
        match blockAt s e (spos + (bfind dataSentinel (imgWindow s spos)).toNat) with
        | .error err => .error err
        | .ok (b, c') =>
          match thumb? with
          | none => imgLoop s e fuel c' (some b)
          | some t => .ok (b, t)
      else imgLoop s e fuel (min (spos + 1024) s.length) thumb?
    else .error .unboundLocal

/-- `getDM4Image` (lines 128-199): scan for `b"\x15\x00\x04Data"` blocks; the
first becomes the thumbnail, the second is returned as the raw image. -/
def getDM4Image (s : List Nat) (e : Char) : Except PyErr (DMImage × DMImage) :=
  imgLoop s e (s.length + 2) 0 none

theorem imgWindow_eq (s : List Nat) (spos : Nat) :
    imgWindow s spos = pyRead s spos 1024 := by
  unfold imgWindow
  by_cases h : spos + 1024 < s.length
  · rw [if_pos h]
  · rw [if_neg h]
    unfold pyRead
    rw [List.take_of_length_le (by simp [List.length_drop]),
      List.take_of_length_le (by simp [List.length_drop]; omega)]

/-! ### `Except` bind analysis -/

theorem bind_ok_iff {α β : Type} {x : Except PyErr α} {f : α → Except PyErr β} {v : β} :
    (x >>= f) = .ok v ↔ ∃ a, x = .ok a ∧ f a = .ok v := by
  cases x <;> simp [Bind.bind, Except.bind]

theorem bind_error_iff {α β : Type} {x : Except PyErr α} {f : α → Except PyErr β}
    {err : PyErr} :
    (x >>= f) = .error err ↔ x = .error err ∨ ∃ a, x = .ok a ∧ f a = .error err := by
  cases x <;> simp [Bind.bind, Except.bind]

theorem unpackqbe_ok_length {bs : List Nat} {v : Int} (h : unpackqbe bs = .ok v) :
    bs.length = 8 := by
  unfold unpackqbe at h
  by_cases hl : bs.length = 8
  · exact hl
  · rw [if_neg hl] at h; cases h

theorem unpackU32_ok_length {e : Char} {bs : List Nat} {v : Nat}
    (h : unpackU32 e bs = .ok v) : bs.length = 4 := by
  unfold unpackU32 at h
  by_cases hl : bs.length = 4
  · exact hl
  · rw [if_neg hl] at h; cases h

theorem pySlice_length (l : List Nat) (a b : Int) (ha : 0 ≤ a) (hb : 0 ≤ b) :
    (pySlice l a b).length = min b.toNat l.length - min a.toNat l.length := by
  simp only [pySlice, pyBound, List.length_drop, List.length_take]
  rw [if_neg (by omega), if_neg (by omega)]
  omega

theorem bfind_ge_neg_one (sig chunk : List Nat) : -1 ≤ bfind sig chunk := by
  unfold bfind
  cases h : (occs sig chunk).head? with
  | none => norm_num
  | some v => show -1 ≤ (v : Int); omega

/-- A successfully processed block strictly advances the recorded cursor past
the sentinel position (and stays inside the stream). -/
theorem blockAt_ok_cursor {s : List Nat} {e : Char} {p : Nat} {b : DMImage}
    {c' : Nat} (h : blockAt s e p = .ok (b, c')) : p < c' ∧ c' ≤ s.length := by
  unfold blockAt at h
  rw [bind_ok_iff] at h
  obtain ⟨tl, htlen, h⟩ := h
  rw [bind_ok_iff] at h
  obtain ⟨ni, -, h⟩ := h
  rw [bind_ok_iff] at h
  obtain ⟨td, -, h⟩ := h
  rw [bind_ok_iff] at h
  obtain ⟨dt, -, h⟩ := h
  rw [bind_ok_iff] at h
  obtain ⟨narray, -, h⟩ := h
  by_cases hseek : (bkCpos s p narray : Int) + bkDpos s p narray < 0
  · rw [if_pos hseek] at h
    simp [throw, throwThe, MonadExceptOf.throw] at h
  · rw [if_neg hseek] at h
    rw [bind_ok_iff] at h
    obtain ⟨dim1, -, h⟩ := h
    rw [bind_ok_iff] at h
    obtain ⟨dim2, hdim2, h⟩ := h
    by_cases hneg : narray < 0
    · rw [if_pos hneg] at h
      simp [throw, throwThe, MonadExceptOf.throw] at h
    · rw [if_neg hneg] at h
      rw [bind_ok_iff] at h
      obtain ⟨floats, -, h⟩ := h
      simp only [pure, Except.pure, Except.ok.injEq, Prod.mk.injEq] at h
      obtain ⟨-, hc'⟩ := h
      have h15 : p + 15 ≤ s.length := by
        have hl := unpackqbe_ok_length htlen
        rw [pySlice_length _ _ _ (by norm_num) (by norm_num)] at hl
        have hr := pyRead_length s p 19
        omega
      have h98 : bkDstart s p narray + 98 ≤ s.length := by
        have hl := unpackU32_ok_length hdim2
        rw [pySlice_length _ _ _ (by norm_num) (by norm_num)] at hl
        have hr := pyRead_length s (bkDstart s p narray) 98
        omega
      have hcpos : p ≤ bkCpos s p narray := by
        unfold bkCpos bkC5 bkC4 bkC3 bkC2 bkC1
        rw [if_neg hneg]
        omega
      have hdge : -1 ≤ bkDpos s p narray :=
        bfind_ge_neg_one dimensionsSig (pyRead s (bkCpos s p narray) 256)
      have hdst : p ≤ bkDstart s p narray + 1 := by
        unfold bkDstart
        omega
      omega

/-- Structural behaviour of the image scan loop: a successful run returns
blocks decoded at two sentinel positions in scan order (thumbnail first), and
a failing run either failed inside a block decode or fell off the end of the
stream, which surfaces as the `UnboundLocalError` of `return raw, thumbnail`.
The invariant carries where the pending thumbnail was decoded. -/
theorem imgLoop_spec (s : List Nat) (e : Char) :
    ∀ fuel spos thumb?,
      (∀ t, thumb? = some t →
        ∃ p0 c0, p0 < spos ∧ (s.drop p0).take dataSentinel.length = dataSentinel ∧
          blockAt s e p0 = .ok (t, c0)) →
      ((∀ raw thumb, imgLoop s e fuel spos thumb? = .ok (raw, thumb) →
        ∃ p1 p2 c1 c2, p1 < p2 ∧
          (s.drop p1).take dataSentinel.length = dataSentinel ∧
          (s.drop p2).take dataSentinel.length = dataSentinel ∧
          blockAt s e p1 = .ok (thumb, c1) ∧ blockAt s e p2 = .ok (raw, c2)) ∧
      (∀ err, imgLoop s e fuel spos thumb? = .error err →
        err = .unboundLocal ∨
          ∃ p, (s.drop p).take dataSentinel.length = dataSentinel ∧
            blockAt s e p = .error err)) := by
  intro fuel
  induction fuel with
  | zero =>
    intro spos thumb? _
    constructor
    · intro raw thumb h
      exact Except.noConfusion h
    · intro err h
      have hz : imgLoop s e 0 spos thumb? = .error .unboundLocal := rfl
      rw [hz] at h
      injection h with h
      exact Or.inl h.symm
  | succ fuel ih =>
    intro spos thumb? hinv
    by_cases hspos : spos < s.length
    swap
    · have hres : imgLoop s e (fuel + 1) spos thumb? = .error .unboundLocal := by
        simp only [imgLoop, if_neg hspos]
      constructor
      · intro raw thumb h
        rw [hres] at h
        exact Except.noConfusion h
      · intro err h
        rw [hres] at h
        injection h with h
        exact Or.inl h.symm
    · by_cases hfind : -1 < bfind dataSentinel (imgWindow s spos)
      swap
      · have hres : imgLoop s e (fuel + 1) spos thumb? =
            imgLoop s e fuel (min (spos + 1024) s.length) thumb? := by
          simp only [imgLoop, if_pos hspos, if_neg hfind]
        have hinv' : ∀ t, thumb? = some t →
            ∃ p0 c0, p0 < min (spos + 1024) s.length ∧
              (s.drop p0).take dataSentinel.length = dataSentinel ∧
              blockAt s e p0 = .ok (t, c0) := by
          intro t ht
          obtain ⟨p0, c0, hlt, hs0, hb0⟩ := hinv t ht
          exact ⟨p0, c0, by omega, hs0, hb0⟩
        have hih := ih (min (spos + 1024) s.length) thumb? hinv'
        constructor
        · intro raw thumb h
          rw [hres] at h
          exact hih.1 raw thumb h
        · intro err h
          rw [hres] at h
          exact hih.2 err h
      · obtain ⟨j, hhead, hj⟩ := bfind_found hfind
        have hjmem := head?_mem hhead
        have hocc := (mem_occs.mp hjmem).2
        rw [imgWindow_eq] at hocc
        have htrans := occ_of_window_occ (show dataSentinel ≠ [] by decide) hocc
        have hsent : (s.drop (spos + j)).take dataSentinel.length = dataSentinel :=
          (mem_occs.mp htrans.1).2
        have htn : (bfind dataSentinel (imgWindow s spos)).toNat = j := by
          rw [hj]
          exact Int.toNat_natCast j
        cases hb : blockAt s e (spos + j) with
        | error err' =>
          have hres : imgLoop s e (fuel + 1) spos thumb? = .error err' := by
            simp only [imgLoop, if_pos hspos, if_pos hfind, htn, hb]
          constructor
          · intro raw thumb h
            rw [hres] at h
            exact Except.noConfusion h
          · intro err h
            rw [hres] at h
            injection h with h
            subst h
            exact Or.inr ⟨spos + j, hsent, hb⟩
        | ok bc =>
          obtain ⟨bb, cc⟩ := bc
          cases thumb? with
          | some t =>
            have hres : imgLoop s e (fuel + 1) spos (some t) = .ok (bb, t) := by
              simp only [imgLoop, if_pos hspos, if_pos hfind, htn, hb]
            obtain ⟨p0, c0, hlt, hs0, hb0⟩ := hinv t rfl
            constructor
            · intro raw thumb h
              rw [hres] at h
              injection h with h
              injection h with h1 h2
              subst h1
              subst h2
              exact ⟨p0, spos + j, c0, cc, by omega, hs0, hsent, hb0, hb⟩
            · intro err h
              rw [hres] at h
              exact Except.noConfusion h
          | none =>
            have hres : imgLoop s e (fuel + 1) spos none =
                imgLoop s e fuel cc (some bb) := by
              simp only [imgLoop, if_pos hspos, if_pos hfind, htn, hb]
            have hcc := blockAt_ok_cursor hb
            have hinv' : ∀ t', (some bb : Option DMImage) = some t' →
                ∃ p0 c0, p0 < cc ∧
                  (s.drop p0).take dataSentinel.length = dataSentinel ∧
                  blockAt s e p0 = .ok (t', c0) := by
              intro t' ht'
              injection ht' with ht'
              subst ht'
              exact ⟨spos + j, cc, hcc.1, hsent, hb⟩
            have hih := ih cc (some bb) hinv'
            constructor
            · intro raw thumb h
              rw [hres] at h
              exact hih.1 raw thumb h
            · intro err h
              rw [hres] at h
              exact hih.2 err h

/-- C8 amended: the image extractor treats the first sentinel-marked block
found in scan order as the thumbnail and the second as the full-resolution
image, stopping at the second; but when fewer than two blocks exist before
end of stream it fails with Python's `UnboundLocalError` (from
`return raw, thumbnail` with `raw` never assigned), not a dedicated
`MissingImage` error, and a malformed block header can also abort with a
different decode error first. -/
theorem C8_amended_two_blocks (s : List Nat) (e : Char) :
    (∀ raw thumb, getDM4Image s e = .ok (raw, thumb) →
      ∃ p1 p2 c1 c2, p1 < p2 ∧
        (s.drop p1).take dataSentinel.length = dataSentinel ∧
        (s.drop p2).take dataSentinel.length = dataSentinel ∧
        blockAt s e p1 = .ok (thumb, c1) ∧ blockAt s e p2 = .ok (raw, c2)) ∧
    (∀ err, getDM4Image s e = .error err →
      err = .unboundLocal ∨
        ∃ p, (s.drop p).take dataSentinel.length = dataSentinel ∧
          blockAt s e p = .error err) :=
  imgLoop_spec s e (s.length + 2) 0 none (fun _ ht => Option.noConfusion ht)

/-! ### Converter normalization and contrast stretch
(`convertDM4DirectoryToTiff`, lines 237-253)

Pixel samples are modelled as exact rationals (the decoded IEEE 754 values;
`f32ToRat`).  numpy float arithmetic is idealized to exact `ℚ` arithmetic;
every comparison the code performs is far from the rounding error of the
corresponding float computation in the claims below.  For a constant grid,
line 237 computes `0/0`, which numpy evaluates to NaN (with a warning, not an
exception), and `np.histogram` at line 239 then raises `ValueError` on its
non-finite autodetected range; the model folds this into the `valueError`
branch of `minMaxNorm`.  (In the `contrast=False` branch the NaN samples
would instead reach an undefined NaN-to-uint8 cast; no claim depends on that
platform-defined value, and the model reports the same `valueError`.) -/

/-- Line 237: `norm_img = (img - np.amin(img))/np.amax(img - np.amin(img))`;
`np.amin` of an empty array raises `ValueError`, a zero denominator yields
NaN samples on which the following histogram raises `ValueError`. -/
def minMaxNorm (grid : List ℚ) : Except PyErr (List ℚ) :=
  match grid with
  | [] => .error .valueError
  | g :: gs =>
    let m := (g :: gs).foldl min g
    let M := ((g :: gs).map (fun x => x - m)).foldl max (g - m)
    if M = 0 then .error .valueError
    else .ok ((g :: gs).map (fun x => (x - m) / M))

/-- Bin index of a sample for `np.histogram(níorm, bins=256)` over the data
range `[mn, mx]`: the last bin is closed on the right. -/
def binOf (mn mx v : ℚ) : Nat :=
  if v = mx then 255 else (((v - mn) * 256 / (mx - mn)).floor).toNat

/-- One histogram increment. -/
def bumpCount (acc : List Nat) (b : Nat) : List Nat :=
  acc.set b (acc.getD b 0 + 1)

/-- Lines 240-248: the scan over `j in range(0, len(hist)-1)` accumulating
`tot` and latching `minedge`/`maxedge` at the first qualifying bin edge.
The list argument supplies `hist[j], hist[j+1], …`; the recursion stops when
fewer than two entries remain, exactly at `j = len(hist)-1`. -/
def edgeScan : (Nat → ℚ) → Nat → ℚ → Option ℚ → Option ℚ → List ℚ →
    Option ℚ × Option ℚ
  | _, _, _, mnE, mxE, [] => (mnE, mxE)
  | _, _, _, mnE, mxE, [_] => (mnE, mxE)
  | edges, j, tot, mnE, mxE, h0 :: h1 :: rest =>
    let tot' := tot + h0 / 256
    let mnE' := if mnE = none ∧ h1 - h0 ≠ 0 ∧ tot' > 1 / 1000 then some (edges j)
      else mnE
    let mxE' := if mxE = none ∧ h1 - h0 ≠ 0 ∧ tot' > 19997 / 20000 then
      some (edges (j + 1)) else mxE
    edgeScan edges (j + 1) tot' mnE' mxE' (h1 :: rest)

/-- Lines 249-251: `(norm-minedge)*255/(maxedge-minedge)`, clip to
`[0, 255]` with the two `np.where`, and truncate to `uint8`
(`astype(np.uint8)` truncates toward zero; all clipped values are
nonnegative, so this is the floor). -/
def stretchMap (mnE mxE : ℚ) (norm : List ℚ) : List Nat :=
  (((norm.map (fun v => (v - mnE) * 255 / (mxE - mnE))).map
      (fun w => if w > 255 then 255 else w)).map
      (fun w => if w < 0 then 0 else w)).map (fun w => (⌊w⌋).toNat)

/-- Lines 239-251: 256-bin density histogram over the data range, edge scan,
then clip-rescale.  `hist[j] = count_j * 256 / (n * (mx - mn))` is
`np.histogram(..., density=True)`; `edges j = mn + j*(mx-mn)/256`.  If either
edge is never latched it stays `None` and line 249 raises `TypeError`
(`None` in arithmetic). -/
def contrastStretch (norm : List ℚ) : Except PyErr (List Nat) :=
  match norm with
  | [] => .error .valueError
  | v :: vs =>
    let mn := (v :: vs).foldl min v
    let mx := (v :: vs).foldl max v
    let bins := (v :: vs).map (binOf mn mx)
    let counts := bins.foldl bumpCount (List.replicate 256 0)
    let hist := counts.map
      (fun (c : Nat) => 256 * (c : ℚ) / (((v :: vs).length : ℚ) * (mx - mn)))
    match edgeScan (fun j => mn + (j : ℚ) * (mx - mn) / 256) 0 0 none none hist with
    | (some mnE, some mxE) => .ok (stretchMap mnE mxE (v :: vs))
    | _ => .error .typeError

/-- The `contrast=True` pipeline of `convertDM4DirectoryToTiff`
(lines 237-251): min-max normalization followed by the contrast stretch. -/
def normStretch (grid : List ℚ) : Except PyErr (List Nat) := do
  let norm ← minMaxNorm grid
  contrastStretch norm

/-- The `contrast=False` branch (line 253): `(norm_img*255).astype(np.uint8)`. -/
def normNoStretch (grid : List ℚ) : Except PyErr (List Nat) := do
  let norm ← minMaxNorm grid
  return norm.map (fun v => (⌊v * 255⌋).toNat)

theorem floor_q255 : ⌊(255 : ℚ)⌋ = 255 := by
  rw [show (255 : ℚ) = ((255 : Int) : ℚ) by norm_num]
  exact Int.floor_intCast 255

theorem stretchMap_le (mnE mxE : ℚ) (norm : List ℚ) :
    ∀ x ∈ stretchMap mnE mxE norm, x ≤ 255 := by
  intro x hx
  unfold stretchMap at hx
  rw [List.mem_map] at hx
  obtain ⟨w, hw, rfl⟩ := hx
  rw [List.mem_map] at hw
  obtain ⟨u, hu, rfl⟩ := hw
  rw [List.mem_map] at hu
  obtain ⟨t, ht, rfl⟩ := hu
  by_cases h1 : t > 255
  · rw [if_pos h1, if_neg (by norm_num : ¬(255 : ℚ) < 0), floor_q255]
    norm_num
  · rw [if_neg h1]
    by_cases h2 : t < 0
    · rw [if_pos h2, Int.floor_zero]
      norm_num
    · rw [if_neg h2]
      push_neg at h1
      have hfl : ⌊t⌋ ≤ 255 := by
        have hm := Int.floor_mono h1
        rw [floor_q255] at hm
        exact hm
      omega

theorem foldl_min_replicate (a b : ℚ) (n : Nat) :
    (List.replicate n b).foldl min a = min a b ∨
      ((List.replicate n b).foldl min a = a ∧ n = 0) := by
  induction n generalizing a with
  | zero => right; exact ⟨rfl, rfl⟩
  | succ n ih =>
    rw [List.replicate_succ, List.foldl_cons]
    rcases ih (min a b) with h | ⟨h, hn⟩
    · left; rw [h, min_assoc, min_self]
    · left; rw [h]

theorem foldl_max_replicate (a b : ℚ) (n : Nat) :
    (List.replicate n b).foldl max a = max a b ∨
      ((List.replicate n b).foldl max a = a ∧ n = 0) := by
  induction n generalizing a with
  | zero => right; exact ⟨rfl, rfl⟩
  | succ n ih =>
    rw [List.replicate_succ, List.foldl_cons]
    rcases ih (max a b) with h | ⟨h, hn⟩
    · left; rw [h, max_assoc, max_self]
    · left; rw [h]

/-- C7 counterexample: on the constant grid `[5, 5]` the normalization
denominator is zero; the samples become NaN and the histogram raises
(`ValueError`); the pipeline does not produce the all-zero output the claim
requires. -/
theorem C7_constant_grid_counterexample :
    normStretch [(5 : ℚ), 5] = .error .valueError ∧
      normStretch [(5 : ℚ), 5] ≠ .ok [0, 0] := by
  have h : normStretch [(5 : ℚ), 5] = .error .valueError := by with_unfolding_all rfl
  exact ⟨h, by rw [h]; intro hh; exact Except.noConfusion hh⟩

/-- A successful run of the normalize-and-stretch pipeline only produces
samples bounded by 255 (the final clipping step guarantees it). -/
theorem normStretch_ok_le {grid : List ℚ} {out : List Nat}
    (hout : normStretch grid = .ok out) : ∀ x ∈ out, x ≤ 255 := by
  intro x hx
  unfold normStretch at hout
  rw [bind_ok_iff] at hout
  obtain ⟨norm, -, hs⟩ := hout
  cases norm with
  | nil => exact Except.noConfusion hs
  | cons v vs =>
    simp only [contrastStretch] at hs
    split at hs
    · rename_i mnE mxE heq
      injection hs with hs
      rw [← hs] at hx
      exact stretchMap_le mnE mxE (v :: vs) x hx
    · exact Except.noConfusion hs

/-- C7 amended: every sample the min-max-normalize-and-contrast-stretch
pipeline outputs lies in `[0, 255]` (samples are `Nat`, so the lower bound is
implicit); but a constant-valued grid does not yield an all-zero output — the
zero denominator produces NaN samples and the pipeline fails with the
histogram's `ValueError` instead of producing anything. -/
theorem C7_amended_stretch_bounds (grid : List ℚ) (c : ℚ) (k : Nat) :
    ((normStretch grid).toOption.getD []).all (fun x => x ≤ 255) = true ∧
      normStretch (List.replicate (k + 1) c) = .error .valueError := by
  constructor
  · cases hres : normStretch grid with
    | error e => simp [Except.toOption]
    | ok out =>
      simp only [Except.toOption, Option.getD_some]
      rw [List.all_eq_true]
      intro x hx
      simpa using normStretch_ok_le hres x hx
  · rw [List.replicate_succ]
    have hm : (c :: List.replicate k c).foldl min c = c := by
      rw [List.foldl_cons, min_self]
      rcases foldl_min_replicate c c k with h | ⟨h, -⟩
      · rw [h, min_self]
      · exact h
    have hmap : (c :: List.replicate k c).map (fun x => x - c) =
        (0 : ℚ) :: List.replicate k 0 := by
      rw [List.map_cons, List.map_replicate]
      norm_num
    have hM : (((c :: List.replicate k c).map (fun x => x - c)).foldl max (c - c)) = 0 := by
      rw [hmap, List.foldl_cons]
      have hcc : max (c - c) (0 : ℚ) = 0 := by norm_num
      rw [hcc]
      rcases foldl_max_replicate 0 0 k with h | ⟨h, -⟩
      · rw [h, max_self]
      · exact h
    have hmin : minMaxNorm (c :: List.replicate k c) = .error .valueError := by
      simp only [minMaxNorm]
      rw [hm, hM]
      simp
    unfold normStretch
    rw [hmin]
    rfl

/-! ### Batch conversion (`convertDM4DirectoryToTiff`, lines 201-265) and the
single-file converter (`convertDM4ToTiff`, lines 267-288) -/

/-- Line 235: `units.replace('µ', 'u').replace('μ', 'u')` on code points
(U+00B5 = 181, U+03BC = 956). -/
def fixMu (lbl : List Nat) : List Nat :=
  (lbl.map (fun c => if c = 181 then 117 else c)).map
    (fun c => if c = 956 then 117 else c)

/-- Modelled from the spec: the external tagged-image writer
(`tf.imwrite`) is out of scope ("standard tagged-image-format
reading/writing [is] treated as a library that accepts a pixel buffer plus
scale metadata and produces a file"); per the spec's error taxonomy, a unit
string not representable in the output encoding raises `UnicodeEncodeError`
at the write boundary, and a successful call writes one file. -/
def imwrite (units : List Nat) : Except PyErr Unit :=
  if units.all (fun c => c < 128) then .ok () else .error .unicodeEncodeError

/-- One input file of a batch run: its name (code points) and its byte
content. -/
structure DM4File where
  name : List Nat
  content : List Nat
  deriving DecidableEq, Repr

/-- Line 228: `name[-3:] == 'dm4'`. -/
def isDM4 (f : DM4File) : Bool := pySliceFrom f.name (-3) == [100, 109, 52]

/-- Lines 233-262, the per-file body of the batch loop (prints elided):
decode endianness, scale and image, normalize (with or without the contrast
stretch), then `try: tf.imwrite(...) except UnicodeEncodeError: warn`.
The argument `resolution=(1/scale, 1/scale)` is evaluated while building the
`tf.imwrite` call, inside the `try`, but a `ZeroDivisionError` from a zero
scale float is not caught by the `except UnicodeEncodeError` clause.  A
warned `UnicodeEncodeError` lets the loop continue; the returned flag tells
whether a file was written.  A non-finite pixel sample (NaN/infinity bits)
would make the downstream numpy arithmetic NaN-valued; no claim exercises
that path and it is folded into the `valueError` branch. -/
def convertOne (contrast : Bool) (f : DM4File) : Except PyErr Bool := do
  let e ← getDM4Endianness f.content
  let su ← getDM4Scale f.content e
  let units := fixMu su.2
  let img ← getDM4Image f.content e
  let grid ← (match img.1.img.mapM f32ToRat with
    | some g => Except.ok g
    | none => Except.error .valueError)
  let _out ← (if contrast then normStretch grid else normNoStretch grid)
  if su.1 % 2 ^ 31 = 0 then throw .zeroDivisionError
  else
    match imwrite units with
    | .ok _ => return true
    | .error _ => return false

/-- Lines 226-264: the batch loop over the walked file list, with the
running counter `i`.  There is no try/except around the decode calls: any
decode exception propagates and aborts the remaining files. -/
def batchLoop (contrast : Bool) : List DM4File → Nat → Except PyErr Nat
  | [], i => .ok i
  | f :: rest, i =>
    if isDM4 f then do
      let _ ← convertOne contrast f
      batchLoop contrast rest (i + 1)
    else batchLoop contrast rest i

/-- `convertDM4DirectoryToTiff` (lines 201-265) over the flattened `os.walk`
file order; returns the number of `.dm4` files processed. -/
def convertDM4DirectoryToTiff (contrast : Bool) (files : List DM4File) :
    Except PyErr Nat :=
  batchLoop contrast files 0

/-- `convertDM4ToTiff` (lines 267-288).  `isfile` and `endsdm4` model the
`os.path.isfile(src)` and `src[-3:] != 'dm4'` guards of line 274; `dest` is
the optional destination argument.  With `dest` omitted, line 278 evaluates
`src[:-len(filname)]` where `filname` is an undefined name: `NameError`,
before any decode work.  With `dest` supplied, line 280 binds the
`(scale, unit)` pair to the single variable `scale`; lines 282-283 raise
only for an empty pixel array (`np.amin` of an empty array is `ValueError`;
NaN and infinity propagate silently in numpy), and the argument
`resolution=(1/scale, 1/scale)` of line 287 then raises `TypeError`
(`1 / tuple`) before `tf.imwrite` can run, so no file is ever written.
The returned flag tells whether a file was written. -/
def convertDM4ToTiff (isfile endsdm4 : Bool) (s : List Nat) (dest : Option Unit) :
    Except PyErr Bool :=
  if !isfile || !endsdm4 then .ok false
  else match dest with
  | none => .error .nameError
  | some _ => do
    let e ← getDM4Endianness s
    let scale ← getDM4Scale s e
    let img ← getDM4Image s e
    if img.1.img.isEmpty then throw .valueError
    else
      let _ : Nat × List Nat := scale
      throw .typeError

/-- C9 amended: a decode error in any `.dm4` file is not caught by the batch
loop (only `UnicodeEncodeError` at the write step is, and it merely warns);
the error propagates out of `convertDM4DirectoryToTiff` and aborts the whole
run, skipping every remaining file, and the loop's running count reports
processed files, not failures. -/
theorem C9_amended_batch_abort (contrast : Bool) (pre post : List DM4File)
    (f : DM4File) (err : PyErr)
    (hpre : ∀ g ∈ pre, isDM4 g = true → ∃ r, convertOne contrast g = .ok r)
    (hf : isDM4 f = true) (herr : convertOne contrast f = .error err) :
    convertDM4DirectoryToTiff contrast (pre ++ f :: post) = .error err := by
  unfold convertDM4DirectoryToTiff
  suffices h : ∀ i, batchLoop contrast (pre ++ f :: post) i = .error err by exact h 0
  induction pre with
  | nil =>
    intro i
    rw [List.nil_append]
    simp only [batchLoop, hf, if_true, herr]
    rfl
  | cons g pre ih =>
    intro i
    rw [List.cons_append]
    by_cases hg : isDM4 g = true
    · obtain ⟨r, hr⟩ := hpre g (by simp) hg
      simp only [batchLoop, hg, if_true, hr]
      have ih' := ih (fun g' hg' => hpre g' (by simp [hg']))
      simp only [Bind.bind, Except.bind]
      exact ih' (i + 1)
    · simp only [batchLoop, hg, if_false]
      have ih' := ih (fun g' hg' => hpre g' (by simp [hg']))
      exact ih' i

/-- C10: the single-file converter never completes a conversion.  For an
existing `.dm4` source: with the destination omitted it raises `NameError`
immediately (the undefined variable `filname` in the default-destination
expression); with a destination supplied it never returns successfully, and
as soon as the stream decodes (nonempty pixel array) the failure is the
`TypeError` of `1 / scale` where `scale` holds the `(scale, unit)` pair
returned by `getDM4Scale`.  In every case no output file is written. -/
theorem C10_never_converts (s : List Nat) (d : Unit) :
    convertDM4ToTiff true true s none = .error .nameError ∧
      (∀ r, convertDM4ToTiff true true s (some d) = .ok r → False) ∧
      (∀ e sc raw thumb, getDM4Endianness s = .ok e → getDM4Scale s e = .ok sc →
        getDM4Image s e = .ok (raw, thumb) → raw.img ≠ [] →
        convertDM4ToTiff true true s (some d) = .error .typeError) := by
  refine ⟨rfl, ?_, ?_⟩
  · intro r hr
    unfold convertDM4ToTiff at hr
    simp only [Bool.not_true, Bool.or_self, Bool.false_eq_true, if_false] at hr
    rw [bind_ok_iff] at hr
    obtain ⟨e, -, hr⟩ := hr
    rw [bind_ok_iff] at hr
    obtain ⟨sc, -, hr⟩ := hr
    rw [bind_ok_iff] at hr
    obtain ⟨img, -, hr⟩ := hr
    by_cases hemp : img.1.img.isEmpty
    · rw [if_pos hemp] at hr
      simp [throw, throwThe, MonadExceptOf.throw] at hr
    · rw [if_neg hemp] at hr
      simp [throw, throwThe, MonadExceptOf.throw] at hr
  · intro e sc raw thumb he hsc himg hne
    unfold convertDM4ToTiff
    simp only [Bool.not_true, Bool.or_self, Bool.false_eq_true, if_false]
    rw [he]
    simp only [Bind.bind, Except.bind]
    rw [hsc, himg]
    have hemp : (raw, thumb).1.img.isEmpty = false := by
      cases hh : raw.img with
      | nil => exact absurd hh hne
      | cons a t => simp [List.isEmpty, hh]
    simp [hemp, throw, throwThe, MonadExceptOf.throw]

/-! ### Concrete test streams -/

/-- Build a stream of `len` zero bytes with the given patches written in. -/
def buildStream (len : Nat) (patches : List (Nat × List Nat)) : List Nat :=
  patches.foldl (fun acc pv => overlay acc pv.1 pv.2) (List.replicate len 0)

/-- A 1300-byte stream that decodes end to end: little-endian flag byte,
`ImageData` at 100 and 1100 (the locator lands at 352 = 1300-1024+76), a
well-formed scale/units area in the window at 352 (scale float 2.5, unit
"n"), and two decodable 2-by-2 image blocks at 600 and 900. -/
def gStream : List Nat :=
  buildStream 1300 [(15, [1]), (100, imageDataSig),
    (372, scaleSig), (412, scaleSig), (452, scaleSig), (485, [0, 0, 32, 64]),
    (502, unitsSig), (543, [0, 0, 0, 0, 0, 0, 0, 1]), (551, [110]),
    (600, dataSentinel), (643, [0, 0, 0, 0, 0, 0, 0, 4]),
    (651, [0, 0, 0, 0, 0, 0, 128, 63, 0, 0, 0, 64, 0, 0, 64, 64]),
    (680, dimensionsSig), (739, [2, 0, 0, 0]), (774, [2, 0, 0, 0]),
    (900, dataSentinel), (943, [0, 0, 0, 0, 0, 0, 0, 4]),
    (951, [0, 0, 0, 0, 0, 0, 128, 63, 0, 0, 0, 64, 0, 0, 64, 64]),
    (980, dimensionsSig), (1039, [2, 0, 0, 0]), (1074, [2, 0, 0, 0]),
    (1100, imageDataSig)]

/-- The 2-by-2 pixel block both image blocks of `gStream` decode to
(float bits of 0.0, 1.0, 2.0, 3.0). -/
def gBlock : DMImage :=
  ⟨[0, 1065353216, 1073741824, 1077936128], (2, 2)⟩

set_option maxRecDepth 1000000 in
set_option maxHeartbeats 8000000 in
/-- Concrete evaluation facts about `gStream`: it detects as little-endian,
its scale decodes to the bits of 2.5f with unit label "n", both image blocks
decode to the same 2-by-2 block, and the batch body converts it. -/
theorem gStream_facts :
    getDM4Endianness gStream = .ok '<' ∧
      getDM4Scale gStream '<' = .ok (1075838976, [110]) ∧
      getDM4Image gStream '<' = .ok (gBlock, gBlock) ∧
      convertOne false ⟨[103, 46, 100, 109, 52], gStream⟩ = .ok true := by
  refine ⟨by with_unfolding_all rfl, by with_unfolding_all rfl,
    by with_unfolding_all rfl, by with_unfolding_all rfl⟩

/-- A 1200-byte stream with `ImageData` at 100 and 1100: the second
occurrence is found in a short final window, and `spos - 1024 + pos`
miscomputes its offset. -/
def aStream : List Nat := buildStream 1200 [(100, imageDataSig), (1100, imageDataSig)]

/-- An 1100-byte stream whose only image-data sentinel straddles the first
1024-byte window boundary (bytes 1018-1024). -/
def bStream : List Nat := buildStream 1100 [(1018, dataSentinel)]

/-- A 600-byte stream with exactly one decodable image block at 100. -/
def cStream : List Nat :=
  buildStream 600 [(100, dataSentinel), (143, [0, 0, 0, 0, 0, 0, 0, 1]),
    (151, [0, 0, 128, 63]), (160, dimensionsSig), (219, [1, 0, 0, 0]),
    (254, [1, 0, 0, 0])]

/-- A 1300-byte stream like `gStream` but whose window at 352 has its three
`Scale` occurrences at relative 20, 30 and 57 — the second within 37 bytes
of the first — plus distinct float bytes at 33..36 past the third occurrence
(bits 2) and past the code's landing position 93 (bits 1). -/
def dStream : List Nat :=
  buildStream 1300 [(100, imageDataSig), (372, scaleSig), (382, scaleSig),
    (409, scaleSig), (442, [2, 0, 0, 0]), (478, [1, 0, 0, 0]), (502, unitsSig),
    (543, [0, 0, 0, 0, 0, 0, 0, 1]), (551, [110]), (1100, imageDataSig)]

set_option maxRecDepth 1000000 in
set_option maxHeartbeats 4000000 in
/-- C2 counterexample: on `aStream` the reference linear scan's second
`ImageData` occurrence is at 1100, but the windowed locator reports 252
(the final window is short, and `spos - 1024 + pos` assumes a full window). -/
theorem C2_offset_mismatch_counterexample :
    occs imageDataSig aStream = [100, 1100] ∧
      loc2Loop aStream (aStream.length + 2) 0 0 false = .ok 252 ∧
      ((252 : Int) ≠ 1100) := by
  refine ⟨by decide, by with_unfolding_all rfl, by decide⟩

set_option maxRecDepth 1000000 in
set_option maxHeartbeats 4000000 in
/-- C1: the whole-buffer scan of `bStream` finds the sentinel at 1018, but
`getDM4Image`'s windowed loop never rewinds, reads `[0, 1024)` and
`[1024, 1100)`, misses the straddling sentinel, and aborts with the
unbound-variable error of `return raw, thumbnail`. -/
theorem C1_split_sentinel_missed :
    occs dataSentinel bStream = [1018] ∧
      getDM4Image bStream '<' = .error .unboundLocal := by
  refine ⟨by decide, by with_unfolding_all rfl⟩

set_option maxRecDepth 1000000 in
set_option maxHeartbeats 4000000 in
/-- C8 counterexample: `cStream` holds exactly one image block; the failure
is the `UnboundLocalError` of `return raw, thumbnail`, not a dedicated
`MissingImage` error. -/
theorem C8_missing_image_counterexample :
    occs dataSentinel cStream = [100] ∧
      getDM4Image cStream '<' = .error .unboundLocal := by
  refine ⟨by decide, by with_unfolding_all rfl⟩

set_option maxRecDepth 1000000 in
set_option maxHeartbeats 4000000 in
/-- C5 counterexample: on `dStream` the code decodes the float at bits 1
(33..36 past its stride-37 landing position 93), while the bytes 33..36 past
the third `Scale` occurrence (position 57) decode to bits 2. -/
theorem C5_third_occurrence_counterexample :
    getDM4Scale dStream '<' = .ok (1, [110]) ∧
      loc2Loop dStream (dStream.length + 2) 0 0 false = .ok 352 ∧
      occs scaleSig (dm4Window dStream 352) = [20, 30, 57] ∧
      unpackF32 '<' (pySlice (dm4Window dStream 352) (57 + 33) (57 + 37)) = .ok 2 ∧
      ((1 : Nat) ≠ 2) := by
  refine ⟨by with_unfolding_all rfl, by with_unfolding_all rfl, by decide,
    by with_unfolding_all rfl, by decide⟩

/-- C8 amended witness: on `gStream` the successful extraction comes from
two sentinel positions in scan order, thumbnail first. -/
theorem C8_amended_two_blocks_witness :
    ∃ p1 p2 c1 c2, p1 < p2 ∧
      (gStream.drop p1).take dataSentinel.length = dataSentinel ∧
      (gStream.drop p2).take dataSentinel.length = dataSentinel ∧
      blockAt gStream '<' p1 = .ok (gBlock, c1) ∧
      blockAt gStream '<' p2 = .ok (gBlock, c2) :=
  (C8_amended_two_blocks gStream '<').1 gBlock gBlock gStream_facts.2.2.1

/-- C10 witness: on the fully decodable `gStream`, omitting the destination
raises `NameError` and supplying one raises the `TypeError` of `1 / scale`
with `scale` the pair; no file is written either way. -/
theorem C10_never_converts_witness :
    convertDM4ToTiff true true gStream none = .error .nameError ∧
      convertDM4ToTiff true true gStream (some ()) = .error .typeError :=
  ⟨(C10_never_converts gStream ()).1,
    (C10_never_converts gStream ()).2.2 '<' (1075838976, [110]) gBlock gBlock
      gStream_facts.1 gStream_facts.2.1 gStream_facts.2.2.1 (by decide)⟩

/-- C9 counterexample: a batch of a malformed (empty) `.dm4` file followed
by a fully convertible one aborts with the malformed file's `IndexError`
and never reaches the good file, although the good file alone converts. -/
theorem C9_malformed_aborts_batch_counterexample :
    convertDM4DirectoryToTiff false
        [⟨[98, 46, 100, 109, 52], ([] : List Nat)⟩,
          ⟨[103, 46, 100, 109, 52], gStream⟩] = .error .indexError ∧
      convertDM4DirectoryToTiff false [⟨[103, 46, 100, 109, 52], gStream⟩] =
        .ok 1 := by
  constructor
  · with_unfolding_all rfl
  · unfold convertDM4DirectoryToTiff
    simp only [batchLoop, isDM4]
    rw [if_pos (by decide)]
    simp only [gStream_facts.2.2.2, Bind.bind, Except.bind]

/-- C9 amended witness: the abort theorem applied to the two-file batch. -/
theorem C9_amended_batch_abort_witness :
    convertDM4DirectoryToTiff false
        [⟨[98, 46, 100, 109, 52], ([] : List Nat)⟩,
          ⟨[103, 46, 100, 109, 52], gStream⟩] = .error .indexError :=
  C9_amended_batch_abort false [] [⟨[103, 46, 100, 109, 52], gStream⟩]
    ⟨[98, 46, 100, 109, 52], []⟩ .indexError
    (fun g hg _ => absurd hg (List.not_mem_nil g)) (by decide)
    (by with_unfolding_all rfl)
